import Mathlib

/-!
Verification of the FIT-FLIX RAG repository's chunking, retrieval and
context-formatting logic, shallowly embedded from the Python sources

  src/interfaces/src/utils/text_splitter.py   (TextSplitter)
  src/interfaces/src/retrieval/retriever.py   (DocumentRetriever)
  src/interfaces/src/generation/llm_manager.py (LLMManager)

Python strings are modelled as `List Char` in the splitter development
(character-level reasoning) and as Lean `String` in the retriever/LLM
development (record plumbing).  Python `len` is `List.length`; Python
exceptions are `Except PyErr`.
-/

set_option maxHeartbeats 1000000

namespace FitFlix

/-! ### Python string primitives -/

/-- Python's whitespace class (`\s` / `str.isspace`) restricted to the ASCII
whitespace characters: space, tab, newline, carriage return, vertical tab,
form feed. -/
def pyIsSpace (c : Char) : Bool :=
  c = ' ' || c = '\t' || c = '\n' || c = '\x0d' || c = '\x0b' || c = '\x0c'

/-- Python `str.lstrip()`. -/
def pyLStrip (s : List Char) : List Char := s.dropWhile pyIsSpace

/-- Python `str.rstrip()`. -/
def pyRStrip (s : List Char) : List Char := (s.reverse.dropWhile pyIsSpace).reverse

/-- Python `str.strip()`. -/
def pyStrip (s : List Char) : List Char := pyLStrip (pyRStrip s)

/-- Python `s[-k:]`: for `k = 0` this is the whole string (`s[-0:] = s[0:]`),
otherwise the last `min k (len s)` characters. -/
def pySliceLast (s : List Char) (k : Nat) : List Char :=
  if k = 0 then s else s.drop (s.length - k)

/-- Python `str.split()` (no argument): split on runs of whitespace, dropping
empty pieces.  `cur` is the current word accumulated in reverse. -/
def wordsAux : List Char → List Char → List (List Char)
  | [], cur => if cur = [] then [] else [cur.reverse]
  | c :: rest, cur =>
    if pyIsSpace c then
      if cur = [] then wordsAux rest [] else cur.reverse :: wordsAux rest []
    else wordsAux rest (c :: cur)

/-- Python `str.split()` on a string. -/
def pyWords (s : List Char) : List (List Char) := wordsAux s []

/-- Python `' '.join(words)`. -/
def spaceJoin (ws : List (List Char)) : List Char :=
  match ws with
  | [] => []
  | [w] => w
  | w :: rest => w ++ ' ' :: spaceJoin rest

/-! ### `TextSplitter._split_by_sentences`

`re.split(r'(?<=[.!?])\s+', text)`: the separator is a maximal run of
whitespace whose immediately preceding character is `.`, `!` or `?`.
`acc` holds the current piece in reverse, so `acc.head?` is the character
immediately before the scan position. -/

/-- Is this character a sentence-ending punctuation mark for the regex
lookbehind `(?<=[.!?])`? -/
def isSentEnd (c : Char) : Bool := c = '.' || c = '!' || c = '?'

/-- The `(?<=[.!?])` lookbehind: does the character before the scan position
(the head of the reversed current piece) end a sentence?  At the start of the
input, and right after a consumed separator, there is no such character. -/
def prevSentEnd : List Char → Bool
  | p :: _ => isSentEnd p
  | [] => false

/-- Raw `re.split(r'(?<=[.!?])\s+', text)` pieces (separators removed, empty
pieces kept, as `re.split` produces them).  `acc` is the current piece in
reverse; `skipping = true` while inside a matched `\s+` separator run, whose
remaining whitespace is consumed without extending any piece. -/
def sentAux : List Char → List Char → Bool → List (List Char)
  | [], acc, _ => [acc.reverse]
  | c :: rest, acc, skipping =>
    if skipping then
      if pyIsSpace c then sentAux rest acc true
      else sentAux rest [c] false
    else if pyIsSpace c && prevSentEnd acc then
      acc.reverse :: sentAux rest [] true
    else
      sentAux rest (c :: acc) false

def sentPieces (text : List Char) : List (List Char) :=
  sentAux text [] false

/-- `TextSplitter._split_by_sentences`: keep pieces with non-empty `strip()`,
append one trailing space to each (text_splitter.py lines 105-116). -/
def splitBySentences (text : List Char) : List (List Char) :=
  ((sentPieces text).filter (fun s => pyStrip s ≠ [])).map (fun s => s ++ [' '])

/-! ### `TextSplitter._get_overlap_text` (lines 157-177) -/

def getOverlapText (text : List Char) (overlapSize : Nat) : List Char :=
  if text.length ≤ overlapSize then text
  else
    match (pySliceLast text overlapSize).findIdx? (fun c => c = ' ') with
    | some i =>
      if 0 < i then (pySliceLast text overlapSize).drop (i + 1)
      else pySliceLast text overlapSize
    | none => pySliceLast text overlapSize

/-! ### `TextSplitter._get_overlap_words` (lines 179-202)

Walks the word list backwards, accumulating whole words while the running
character budget (`len(word) + 1` each) stays within `overlap_size`. -/

def overlapWordsGo (overlapSize : Nat) : List (List Char) → Nat → List (List Char) → List (List Char)
  | [], _, acc => acc
  | w :: rest, len, acc =>
    if len + w.length + 1 > overlapSize then acc
    else overlapWordsGo overlapSize rest (len + w.length + 1) (w :: acc)

def getOverlapWords (words : List (List Char)) (overlapSize : Nat) : List (List Char) :=
  if words = [] then [] else overlapWordsGo overlapSize words.reverse 0 []

/-! ### `TextSplitter._split_long_sentence` (lines 118-155)

State: `chunks` accumulated so far (in order) and `cur`, the current word
list.  `current_length` in the source is `sum (len w + 1 for w in cur)`. -/

/-- `sum(len(w) + 1 for w in current_chunk)` from line 135. -/
def estLen (cur : List (List Char)) : Nat :=
  (cur.map (fun w => w.length + 1)).sum

def slsGo (chunkSize overlapSize : Nat) : List (List Char) → List (List Char) → List (List Char)
  | [], cur => if cur ≠ [] then [spaceJoin cur] else []
  | w :: rest, cur =>
    if estLen cur + w.length > chunkSize then
      if cur ≠ [] then
        spaceJoin cur :: slsGo chunkSize overlapSize rest (getOverlapWords cur overlapSize ++ [w])
      else
        w :: slsGo chunkSize overlapSize rest []
    else
      slsGo chunkSize overlapSize rest (cur ++ [w])

def splitLongSentence (sentence : List Char) (chunkSize overlapSize : Nat) : List (List Char) :=
  slsGo chunkSize overlapSize (pyWords sentence) []

/-! ### `TextSplitter.split_text` (lines 57-103)

`splitTextGo` is the sentence loop of lines 82-101, written in
"chunks emitted from here on" style; `cur` is `current_chunk`.
The `chunk_size`/`chunk_overlap` arguments are the values after the
`x or self.x` defaulting on lines 70-71. -/

def splitTextGo (chunkSize overlapSize : Nat) : List (List Char) → List Char → List (List Char)
  | [], cur => if pyStrip cur ≠ [] then [pyStrip cur] else []
  | s :: rest, cur =>
    if cur.length + s.length > chunkSize then
      if cur ≠ [] then
        pyStrip cur :: splitTextGo chunkSize overlapSize rest (getOverlapText cur overlapSize ++ s)
      else
        let sc := splitLongSentence s chunkSize overlapSize
        sc.dropLast ++ splitTextGo chunkSize overlapSize rest (sc.getLastD [])
    else
      splitTextGo chunkSize overlapSize rest (cur ++ s)

def splitText (text : List Char) (chunkSize overlapSize : Nat) : List (List Char) :=
  if text.length ≤ chunkSize then [text]
  else splitTextGo chunkSize overlapSize (splitBySentences text) []

/-! ### `TextSplitter.split_documents` (lines 23-55)

Documents are Python dicts; a missing `'content'` or `'metadata'` key raises
`KeyError`, which the `except` on line 50 catches, skipping the document.
Metadata values are ints or strings. -/

inductive MVal where
  | intV (n : Nat)
  | strV (s : List Char)
deriving DecidableEq

/-- A loaded document: `{'content': ..., 'metadata': ...}` with either key
possibly missing (`none`). -/
structure SrcDoc where
  content : Option (List Char)
  metadata : Option (List (String × MVal))
deriving DecidableEq

/-- A chunked document produced by `split_documents`. -/
structure ChunkDoc where
  content : List Char
  metadata : List (String × MVal)
deriving DecidableEq

/-- Python dict update `{**m, k: v}` for a single key: replaces the value if
the key is present (keeping its position), else appends the new key. -/
def dictSet (m : List (String × MVal)) (k : String) (v : MVal) : List (String × MVal) :=
  if m.any (fun p => p.1 = k) then m.map (fun p => if p.1 = k then (k, v) else p)
  else m ++ [(k, v)]

/-- The metadata dict literal of lines 41-46:
`{**doc['metadata'], 'chunk_id': i, 'total_chunks': total, 'original_length': olen}`. -/
def stampMeta (md : List (String × MVal)) (i total olen : Nat) : List (String × MVal) :=
  dictSet (dictSet (dictSet md "chunk_id" (.intV i)) "total_chunks" (.intV total))
    "original_length" (.intV olen)

/-- The chunks contributed by one document in the `split_documents` loop.
`doc['content']` missing raises `KeyError` before any chunk is appended, so
the document contributes nothing; `doc['metadata']` missing raises on the
first chunk (before its append), likewise contributing nothing. -/
def docContribution (chunkSize overlapSize : Nat) (doc : SrcDoc) : List ChunkDoc :=
  match doc.content with
  | none => []
  | some content =>
    match doc.metadata with
    | none => []
    | some md =>
      let chunks := splitText content chunkSize overlapSize
      chunks.mapIdx fun i c => ⟨c, stampMeta md i chunks.length content.length⟩

/-- `TextSplitter.split_documents`: per-document chunks concatenated in
order; a document whose processing raises is skipped. -/
def splitDocuments (chunkSize overlapSize : Nat) (docs : List SrcDoc) : List ChunkDoc :=
  (docs.map (docContribution chunkSize overlapSize)).flatten

/-! ## Retriever (`src/interfaces/src/retrieval/retriever.py`)

The ChromaDB collection and the embedding manager are external
collaborators; they are modelled by their outcomes: `countResult` is what
`collection.count()` does, `queryResult k` is what
`collection.query(..., n_results=k)` does, and the two `embed*Result`
fields are what `EmbeddingManager.embed_text` / `embed_texts` do.
`collection = none` models `self.collection is None` (never initialized). -/

inductive PyErr where
  | runtimeError
  | indexError
  | exc
deriving DecidableEq

/-- Chroma metadata dict for one stored record (string-valued entries). -/
abbrev RMeta := List (String × String)

/-- The reply of `collection.query`: parallel singleton-batched lists.
`metadatas`/`distances` may be `None` (`none` here). -/
structure QueryReply where
  documents : List (List String)
  metadatas : Option (List (List RMeta))
  distances : Option (List (List ℚ))

/-- One formatted result dict of `retrieve` (lines 123-127): keys
`'content'`, `'metadata'`, `'distance'` — and no `'similarity'` key. -/
structure RetrievedDoc where
  content : String
  metadata : RMeta
  distance : Option ℚ
deriving DecidableEq

structure StoreModel where
  countResult : Except PyErr Nat
  queryResult : Nat → Except PyErr QueryReply
  addResult : Except PyErr Unit

structure Retriever where
  collection : Option StoreModel
  embedQueryResult : Except PyErr (List ℚ)
  embedTextsResult : Except PyErr (List (List ℚ))

/-- Python list indexing `l[i]`: raises `IndexError` when out of range. -/
def pyGet (l : List α) (i : Nat) : Except PyErr α :=
  match l.get? i with
  | some x => .ok x
  | none => .error .indexError

/-- The result-formatting loop of lines 120-128.  `results['documents'] and
results['documents'][0]` guards the loop; inside it,
`results['metadatas'][0][i] if results['metadatas'] else {}` (list
truthiness on the outer list) and likewise for distances, with out-of-range
indexing raising `IndexError`. -/
def formatResults (res : QueryReply) : Except PyErr (List RetrievedDoc) :=
  match res.documents with
  | [] => .ok []
  | d0 :: _ =>
    if d0.isEmpty then .ok []
    else
      (List.range d0.length).mapM fun i => do
        let content ← pyGet d0 i
        let metadata ← match res.metadatas with
          | some (m0 :: _) => pyGet m0 i
          | _ => Except.ok []
        let distance ← match res.distances with
          | some (ds0 :: _) => do
            let d ← pyGet ds0 i
            Except.ok (some d)
          | _ => Except.ok none
        Except.ok (⟨content, metadata, distance⟩ : RetrievedDoc)

/-- `DocumentRetriever.retrieve` (lines 91-135).  The uninitialized guard
raises `RuntimeError`; everything inside the `try` that raises is caught by
the `except` on line 133, which returns `[]`. -/
def retrieve (r : Retriever) (nResults : Nat) : Except PyErr (List RetrievedDoc) :=
  match r.collection with
  | none => .error .runtimeError
  | some store =>
    let body : Except PyErr (List RetrievedDoc) := do
      let count ← store.countResult
      if count = 0 then Except.ok []
      else do
        let _ ← r.embedQueryResult
        let results ← store.queryResult (min nResults count)
        formatResults results
    match body with
    | .error _ => .ok []
    | .ok docs => .ok docs

/-- `DocumentRetriever.add_documents` (lines 52-89).  The uninitialized
guard raises `RuntimeError`; inside the `try`, embedding failures and store
failures are logged and re-raised (`raise` on line 89).  The ≤100-record
batching loop only shapes the store calls, not the outcome, and is
abstracted into the single `addResult` outcome. -/
def addDocuments (r : Retriever) (_documents : List String) : Except PyErr Unit :=
  match r.collection with
  | none => .error .runtimeError
  | some store => do
    let _ ← r.embedTextsResult
    let _ ← store.addResult
    Except.ok ()

/-- The dict returned by `get_retrieval_stats` (lines 137-155). -/
structure RetrievalStats where
  documentCount : Nat
  status : String
  collectionName : Option String
  error : Option PyErr
deriving DecidableEq

/-- `DocumentRetriever.get_retrieval_stats`: never raises; uninitialized
state reports `{'document_count': 0, 'status': 'not_initialized'}`. -/
def getRetrievalStats (r : Retriever) (collectionName : String) : RetrievalStats :=
  match r.collection with
  | none => ⟨0, "not_initialized", none, none⟩
  | some store =>
    match store.countResult with
    | .ok c => ⟨c, "ready", some collectionName, none⟩
    | .error e => ⟨0, "error", none, some e⟩

/-! ## LLM manager context building
(`src/interfaces/src/generation/llm_manager.py`, lines 107-129)

`_build_context` receives a list of dicts and reads `doc['content']`,
`doc.get('metadata', {}).get('source', 'Unknown')` and
`doc.get('similarity', 0)`.  A dict fed to it is modelled by which of those
keys it carries; the records produced by `retrieve` carry `content`,
`metadata` and `distance` — no `similarity` key, so `toCtxInput` maps them
with `similarity := none`. -/

structure CtxInput where
  content : String
  metadata : Option RMeta
  similarity : Option ℚ
deriving DecidableEq

/-- View of a `retrieve` result dict as `_build_context` input: it has
`'content'` and `'metadata'` keys but no `'similarity'` key. -/
def toCtxInput (d : RetrievedDoc) : CtxInput :=
  ⟨d.content, some d.metadata, none⟩

/-- Python `'%.2f'`-style fixed-point rendering of the (rational-modelled)
similarity value: round `|q| * 100` to the nearest integer (half-up,
computed on the numerator/denominator so it evaluates by reduction) and
print with two decimals; the claims only exercise values where this agrees
with CPython float formatting. -/
def fmt2 (q : ℚ) : String :=
  let sign := if q < 0 then "-" else ""
  let n : Nat := (q.num.natAbs * 200 + q.den) / (q.den * 2)
  sign ++ toString (n / 100) ++ "." ++ (if n % 100 < 10 then "0" else "") ++ toString (n % 100)

/-- `doc.get('metadata', {}).get('source', 'Unknown')` from line 122. -/
def sourceOf (d : CtxInput) : String :=
  match (d.metadata.getD []).lookup "source" with
  | some s => s
  | none => "Unknown"

/-- One f-string block of lines 125-127:
`f"Document {i} (Relevance: {similarity:.2f}, Source: {source}):\n{content}\n"`. -/
def renderDoc (i : Nat) (d : CtxInput) : String :=
  "Document " ++ toString i ++ " (Relevance: " ++ fmt2 (d.similarity.getD 0) ++
    ", Source: " ++ sourceOf d ++ "):\n" ++ d.content ++ "\n"

/-- The `for i, doc in enumerate(documents, 1)` loop of lines 119-127,
accumulating `context_parts`. -/
def buildContextGo : Nat → List CtxInput → List String
  | _, [] => []
  | i, d :: rest => renderDoc i d :: buildContextGo (i + 1) rest

/-- Python `sep.join(parts)`. -/
def joinSep (sep : String) : List String → String
  | [] => ""
  | [x] => x
  | x :: xs => x ++ sep ++ joinSep sep xs

/-- `LLMManager._build_context` (lines 107-129). -/
def buildContext (documents : List CtxInput) : String :=
  if documents = [] then "No relevant information found in the knowledge base."
  else joinSep "\n" (buildContextGo 1 documents)

/-- Modelled from the spec's words for the C6 refinement: each result is a
numbered block `"Document i (Relevance: s, Source: src):" ++ newline ++
content` (numbering from 1, similarity in 2-decimal fixed point), blocks
joined by blank lines, with a trailing newline; an empty result list
renders as the fixed no-information sentence. -/
def buildContextSpec (documents : List CtxInput) : String :=
  if documents = [] then "No relevant information found in the knowledge base."
  else
    joinSep "\n\n" (documents.mapIdx fun j d =>
      "Document " ++ toString (j + 1) ++ " (Relevance: " ++ fmt2 (d.similarity.getD 0) ++
        ", Source: " ++ sourceOf d ++ "):\n" ++ d.content) ++ "\n"

/-! ## Helper lemmas: strip -/

theorem pyLStrip_suffix (s : List Char) : pyLStrip s <:+ s :=
  List.dropWhile_suffix pyIsSpace

theorem pyRStrip_append_sp (s : List Char) :
    ∃ t, s = pyRStrip s ++ t ∧ ∀ c ∈ t, pyIsSpace c = true := by
  refine ⟨(s.reverse.takeWhile pyIsSpace).reverse, ?_, ?_⟩
  · conv_lhs => rw [← s.reverse_reverse,
      ← List.takeWhile_append_dropWhile pyIsSpace s.reverse]
    rw [List.reverse_append]
    rfl
  · intro c hc
    rw [List.mem_reverse] at hc
    exact List.mem_takeWhile_imp hc

theorem pyRStrip_length_le (s : List Char) : (pyRStrip s).length ≤ s.length := by
  obtain ⟨t, hs, -⟩ := pyRStrip_append_sp s
  conv_rhs => rw [hs]
  simp

theorem pyStrip_length_le (s : List Char) : (pyStrip s).length ≤ s.length :=
  le_trans (List.IsSuffix.length_le (pyLStrip_suffix _)) (pyRStrip_length_le s)

theorem pyLStrip_eq_nil_iff {s : List Char} :
    pyLStrip s = [] ↔ ∀ c ∈ s, pyIsSpace c = true := List.dropWhile_eq_nil_iff

theorem pyRStrip_eq_nil_iff {s : List Char} :
    pyRStrip s = [] ↔ ∀ c ∈ s, pyIsSpace c = true := by
  unfold pyRStrip
  rw [List.reverse_eq_nil_iff, List.dropWhile_eq_nil_iff]
  constructor <;> intro h c hc
  · exact h c (List.mem_reverse.mpr hc)
  · exact h c (List.mem_reverse.mp hc)

theorem pyStrip_eq_nil_iff {s : List Char} :
    pyStrip s = [] ↔ ∀ c ∈ s, pyIsSpace c = true := by
  unfold pyStrip
  rw [pyLStrip_eq_nil_iff]
  constructor
  · intro h c hc
    obtain ⟨t, hs, ht⟩ := pyRStrip_append_sp s
    rw [hs] at hc
    rcases List.mem_append.mp hc with h1 | h2
    · exact h c h1
    · exact ht c h2
  · intro h c hc
    obtain ⟨t, hs, -⟩ := pyRStrip_append_sp s
    exact h c (by rw [hs]; exact List.mem_append_left _ hc)

/-- `dropWhile` distributes over append when the left part does not vanish. -/
theorem dropWhile_append_of_ne_nil {p : Char → Bool} {x y : List Char}
    (h : List.dropWhile p x ≠ []) :
    List.dropWhile p (x ++ y) = List.dropWhile p x ++ y := by
  rw [List.dropWhile_append]
  simp [List.isEmpty_iff, h]

theorem dropWhile_append_of_allp {p : Char → Bool} {x y : List Char}
    (h : ∀ c ∈ x, p c = true) :
    List.dropWhile p (x ++ y) = List.dropWhile p y := by
  rw [List.dropWhile_append]
  simp [List.isEmpty_iff, List.dropWhile_eq_nil_iff.mpr h]

theorem pyRStrip_append_right {a b : List Char} (h : pyRStrip b ≠ []) :
    pyRStrip (a ++ b) = a ++ pyRStrip b := by
  unfold pyRStrip at *
  rw [List.reverse_append, dropWhile_append_of_ne_nil, List.reverse_append,
    List.reverse_reverse]
  intro hnil
  exact h (by rw [hnil]; rfl)

theorem pyRStrip_append_allws {a b : List Char} (h : ∀ c ∈ b, pyIsSpace c = true) :
    pyRStrip (a ++ b) = pyRStrip a := by
  unfold pyRStrip
  rw [List.reverse_append, dropWhile_append_of_allp]
  intro c hc
  exact h c (List.mem_reverse.mp hc)

theorem pyRStrip_suffix_mono {a b : List Char} (h : a <:+ b) :
    pyRStrip a <:+ pyRStrip b := by
  obtain ⟨p, rfl⟩ := h
  by_cases ha : pyRStrip a = []
  · rw [ha]; exact List.nil_suffix
  · rw [pyRStrip_append_right ha]
    exact ⟨p, rfl⟩

theorem suffix_of_suffix_length_le {s₁ s₂ t : List Char}
    (h1 : s₁ <:+ t) (h2 : s₂ <:+ t) (h : s₁.length ≤ s₂.length) : s₁ <:+ s₂ := by
  obtain ⟨p1, hp1⟩ := h1
  obtain ⟨p2, hp2⟩ := h2
  have hlen : p2.length ≤ p1.length := by
    have e1 := congrArg List.length hp1
    have e2 := congrArg List.length hp2
    simp at e1 e2
    omega
  have hp2eq : p1.take p2.length = p2 := by
    have h' : p1 ++ s₁ = p2 ++ s₂ := by rw [hp1, hp2]
    have h'' := congrArg (List.take p2.length) h'
    rwa [List.take_append_of_le_length hlen, List.take_left] at h''
  have hc : p2 ++ (p1.drop p2.length ++ s₁) = p2 ++ s₂ := by
    calc p2 ++ (p1.drop p2.length ++ s₁)
        = (p1.take p2.length ++ p1.drop p2.length) ++ s₁ := by
          rw [hp2eq, List.append_assoc]
      _ = p1 ++ s₁ := by rw [List.take_append_drop]
      _ = p2 ++ s₂ := by rw [hp1, hp2]
  exact ⟨p1.drop p2.length, List.append_cancel_left hc⟩

/-- A nonempty strip starts with a non-whitespace character. -/
theorem pyLStrip_head_not_ws {s : List Char} {c : Char} {rest : List Char}
    (h : pyLStrip s = c :: rest) : pyIsSpace c = false := by
  induction s with
  | nil => simp [pyLStrip] at h
  | cons x xs ih =>
    unfold pyLStrip List.dropWhile at h
    by_cases hx : pyIsSpace x
    · rw [hx] at h
      exact ih h
    · simp only [Bool.not_eq_true] at hx
      rw [hx] at h
      cases h
      exact hx

theorem pyStrip_head_not_ws {s : List Char} {c : Char} {rest : List Char}
    (h : pyStrip s = c :: rest) : pyIsSpace c = false :=
  pyLStrip_head_not_ws h

/-- C8 key lemma: strips of nested suffixes are suffixes. -/
theorem pyStrip_suffix_mono {a b : List Char} (h : a <:+ b) :
    pyStrip a <:+ pyStrip b := by
  have hra : pyStrip a <:+ pyRStrip b :=
    (pyLStrip_suffix (pyRStrip a)).trans (pyRStrip_suffix_mono h)
  have hrb : pyStrip b <:+ pyRStrip b := pyLStrip_suffix (pyRStrip b)
  refine suffix_of_suffix_length_le hra hrb ?_
  by_contra hlen
  push_neg at hlen
  -- then pyStrip a = z ++ pyStrip b with z a nonempty run of leading whitespace
  obtain ⟨wsPre, hsplit⟩ : ∃ w, w ++ pyStrip b = pyRStrip b := hrb
  obtain ⟨ka, hka⟩ : ∃ k, (pyRStrip b).drop k = pyStrip a := by
    rw [List.suffix_iff_eq_drop] at hra
    exact ⟨_, hra.symm⟩
  have hka_len : (pyStrip a).length = (pyRStrip b).length - ka := by
    rw [← hka]
    simp
  have hkle : ka ≤ wsPre.length := by
    have hle : (pyStrip a).length ≤ (pyRStrip b).length :=
      List.IsSuffix.length_le hra
    have hlb : (pyRStrip b).length = wsPre.length + (pyStrip b).length := by
      rw [← hsplit]; simp
    omega
  rw [← hsplit, List.drop_append_of_le_length hkle] at hka
  have hdrop_ne : wsPre.drop ka ≠ [] := by
    intro hnil
    rw [hnil, List.nil_append] at hka
    have := congrArg List.length hka
    simp at this
    omega
  obtain ⟨c, rest', hcons⟩ := List.exists_cons_of_ne_nil hdrop_ne
  have hcws : pyIsSpace c = true := by
    have hmem : c ∈ wsPre := by
      have : c ∈ wsPre.drop ka := by rw [hcons]; exact List.mem_cons_self _ _
      exact List.mem_of_mem_drop this
    -- wsPre consists of whitespace: it is the part lstrip removed from pyRStrip b
    have : wsPre = List.takeWhile pyIsSpace (pyRStrip b) := by
      have h1 : wsPre ++ pyStrip b = List.takeWhile pyIsSpace (pyRStrip b) ++
          List.dropWhile pyIsSpace (pyRStrip b) := by
        rw [hsplit, List.takeWhile_append_dropWhile]
      have h2 : (pyStrip b).length = (List.dropWhile pyIsSpace (pyRStrip b)).length := rfl
      exact List.append_inj_left' h1 h2
    rw [this] at hmem
    exact List.mem_takeWhile_imp hmem
  have hsa : pyStrip a = c :: (rest' ++ pyStrip b) := by
    rw [← hka, hcons, List.cons_append]
  have hcnws : pyIsSpace c = false := pyStrip_head_not_ws hsa
  rw [hcws] at hcnws
  exact absurd hcnws (by simp)

/-- C8 key lemma: the strip of `a` survives as a prefix of the strip of
`a ++ b`. -/
theorem pyStrip_append_isPrefix (a b : List Char) :
    pyStrip a <+: pyStrip (a ++ b) := by
  by_cases ha : pyStrip a = []
  · rw [ha]; exact List.nil_prefix
  · have hans : ¬ ∀ c ∈ a, pyIsSpace c = true := fun h => ha (pyStrip_eq_nil_iff.mpr h)
    by_cases hb : pyRStrip b = []
    · have hballws : ∀ c ∈ b, pyIsSpace c = true := pyRStrip_eq_nil_iff.mp hb
      rw [show pyStrip (a ++ b) = pyStrip a by
        unfold pyStrip; rw [pyRStrip_append_allws hballws]]
    · have hstep : pyRStrip (a ++ b) = a ++ pyRStrip b := pyRStrip_append_right hb
      have hla : pyLStrip a ≠ [] := fun h => hans (pyLStrip_eq_nil_iff.mp h)
      have hstep2 : pyStrip (a ++ b) = pyLStrip a ++ pyRStrip b := by
        unfold pyStrip
        rw [hstep]
        exact dropWhile_append_of_ne_nil hla
      -- pyLStrip a = pyStrip a ++ (trailing whitespace of a)
      obtain ⟨t, hdecomp, htws⟩ := pyRStrip_append_sp a
      have hlsa : pyLStrip a = pyStrip a ++ t := by
        conv_lhs => rw [hdecomp]
        unfold pyStrip
        refine dropWhile_append_of_ne_nil ?_
        exact ha
      rw [hstep2, hlsa, List.append_assoc]
      exact ⟨t ++ pyRStrip b, rfl⟩

/-! ## Helper lemmas: overlap text -/

theorem getOverlapText_suffix (t : List Char) (ov : Nat) : getOverlapText t ov <:+ t := by
  unfold getOverlapText
  split
  · exact List.suffix_refl t
  · have hslice : pySliceLast t ov <:+ t := by
      unfold pySliceLast
      split
      · exact List.suffix_refl t
      · exact List.drop_suffix _ _
    split
    · split
      · exact (List.drop_suffix _ _).trans hslice
      · exact hslice
    · exact hslice

theorem getOverlapText_length_le (t : List Char) (ov : Nat) (hov : 1 ≤ ov) :
    (getOverlapText t ov).length ≤ ov := by
  unfold getOverlapText
  split
  · omega
  · rename_i hlen
    have hslice : (pySliceLast t ov).length = ov := by
      unfold pySliceLast
      rw [if_neg (by omega)]
      rw [List.length_drop]
      omega
    split
    · split
      · calc ((pySliceLast t ov).drop _).length ≤ (pySliceLast t ov).length :=
            List.IsSuffix.length_le (List.drop_suffix _ _)
          _ ≤ ov := le_of_eq hslice
      · omega
    · omega

/-! ## Helper lemmas: `pyWords` -/

theorem wordsAux_trail_ws {c : Char} (hc : pyIsSpace c = true) :
    ∀ (a : List Char) (cur : List Char), wordsAux (a ++ [c]) cur = wordsAux a cur := by
  intro a
  induction a with
  | nil =>
    intro cur
    by_cases hcur : cur = [] <;> simp [wordsAux, hc, hcur]
  | cons x xs ih =>
    intro cur
    by_cases hx : pyIsSpace x <;> by_cases hcur : cur = [] <;>
      simp [wordsAux, hx, hcur, ih]

theorem wordsAux_ws_split {c : Char} (hc : pyIsSpace c = true) :
    ∀ (a b : List Char) (cur : List Char),
      wordsAux (a ++ c :: b) cur = wordsAux (a ++ [c]) cur ++ wordsAux b [] := by
  intro a
  induction a with
  | nil =>
    intro b cur
    by_cases hcur : cur = [] <;> simp [wordsAux, hc, hcur]
  | cons x xs ih =>
    intro b cur
    have hstep : ∀ (rest : List Char) (cur' : List Char), wordsAux (x :: rest) cur' =
        if pyIsSpace x then
          (if cur' = [] then wordsAux rest [] else cur'.reverse :: wordsAux rest [])
        else wordsAux rest (x :: cur') := fun _ _ => rfl
    rw [List.cons_append, List.cons_append, hstep, hstep]
    by_cases hx : pyIsSpace x
    · rw [if_pos hx, if_pos hx]
      by_cases hcur : cur = []
      · rw [if_pos hcur, if_pos hcur, ih]
      · rw [if_neg hcur, if_neg hcur, ih, List.cons_append]
    · rw [if_neg hx, if_neg hx, ih]

theorem pyWords_ws_split {c : Char} (hc : pyIsSpace c = true) (a b : List Char) :
    pyWords (a ++ c :: b) = pyWords (a ++ [c]) ++ pyWords b :=
  wordsAux_ws_split hc a b []

theorem pyWords_trail_ws {c : Char} (hc : pyIsSpace c = true) (a : List Char) :
    pyWords (a ++ [c]) = pyWords a :=
  wordsAux_trail_ws hc a []

theorem pyWords_all_ws {l : List Char} (h : ∀ c ∈ l, pyIsSpace c = true) :
    pyWords l = [] := by
  induction l with
  | nil => rfl
  | cons x xs ih =>
    unfold pyWords wordsAux
    rw [h x (List.mem_cons_self _ _)]
    simp only [reduceIte]
    exact ih fun c hc => h c (List.mem_cons_of_mem _ hc)

/-- Appending trailing whitespace does not change the word list. -/
theorem pyWords_append_all_ws {u t : List Char} (h : ∀ c ∈ t, pyIsSpace c = true) :
    pyWords (u ++ t) = pyWords u := by
  cases t with
  | nil => simp
  | cons c t' =>
    rw [pyWords_ws_split (h c (List.mem_cons_self _ _)) u t',
      pyWords_trail_ws (h c (List.mem_cons_self _ _)),
      pyWords_all_ws fun d hd => h d (List.mem_cons_of_mem _ hd)]
    simp

/-- A string is `[]` or ends in a whitespace character: the shape in which
word lists split across appends. -/
def EndsWsOrNil (l : List Char) : Prop :=
  l = [] ∨ ∃ l' c, pyIsSpace c = true ∧ l = l' ++ [c]

theorem endsWsOrNil_append_single {c : Char} (hc : pyIsSpace c = true) (l : List Char) :
    EndsWsOrNil (l ++ [c]) := Or.inr ⟨l, c, hc, rfl⟩

theorem endsWsOrNil_append_left (a : List Char) {b : List Char} (hb : EndsWsOrNil b)
    (hbne : b ≠ []) : EndsWsOrNil (a ++ b) := by
  rcases hb with rfl | ⟨b', c, hc, rfl⟩
  · exact absurd rfl hbne
  · exact Or.inr ⟨a ++ b', c, hc, by rw [List.append_assoc]⟩

/-- Word lists split across an append whose left half ends in whitespace. -/
theorem pyWords_append {a : List Char} (ha : EndsWsOrNil a) (b : List Char) :
    pyWords (a ++ b) = pyWords a ++ pyWords b := by
  rcases ha with rfl | ⟨a', c, hc, rfl⟩
  · simp [pyWords, wordsAux]
  · rw [List.append_assoc, List.singleton_append, pyWords_ws_split hc]

theorem pyWords_lstrip (l : List Char) : pyWords (pyLStrip l) = pyWords l := by
  unfold pyLStrip
  induction l with
  | nil => rfl
  | cons x xs ih =>
    by_cases hx : pyIsSpace x
    · rw [List.dropWhile_cons_of_pos hx, ih]
      simp [pyWords, wordsAux, hx]
    · rw [List.dropWhile_cons_of_neg (by simp [hx])]

theorem pyWords_rstrip (l : List Char) : pyWords (pyRStrip l) = pyWords l := by
  obtain ⟨t, hdecomp, htws⟩ := pyRStrip_append_sp l
  conv_rhs => rw [hdecomp]
  rw [pyWords_append_all_ws htws]

theorem pyWords_strip (l : List Char) : pyWords (pyStrip l) = pyWords l := by
  unfold pyStrip
  rw [pyWords_lstrip, pyWords_rstrip]

theorem pyWords_nil_of_strip_nil {l : List Char} (h : pyStrip l = []) :
    pyWords l = [] := by
  rw [← pyWords_strip, h]
  rfl

/-! ## Helper lemmas: sentence splitting preserves words -/

theorem sentAux_words :
    ∀ l : List Char,
      (∀ acc, (((sentAux l acc false).map pyWords)).flatten = pyWords (acc.reverse ++ l)) ∧
      (((sentAux l [] true).map pyWords)).flatten = pyWords l := by
  intro l
  induction l with
  | nil =>
    refine ⟨fun acc => ?_, ?_⟩
    · simp [sentAux]
    · simp [sentAux, pyWords, wordsAux]
  | cons c rest ih =>
    constructor
    · intro acc
      show (((if (pyIsSpace c && prevSentEnd acc) = true then
          acc.reverse :: sentAux rest [] true
        else sentAux rest (c :: acc) false).map pyWords)).flatten = _
      by_cases hcond : (pyIsSpace c && prevSentEnd acc) = true
      · rw [if_pos hcond]
        have hcws : pyIsSpace c = true := ((Bool.and_eq_true _ _).mp hcond).1
        rw [List.map_cons, List.flatten_cons, ih.2]
        rw [pyWords_ws_split hcws, pyWords_trail_ws hcws]
      · rw [if_neg hcond]
        rw [(ih.1 (c :: acc)), List.reverse_cons, List.append_assoc,
          List.singleton_append]
    · show (((if pyIsSpace c then sentAux rest [] true
          else sentAux rest [c] false).map pyWords)).flatten = _
      by_cases hcws : pyIsSpace c
      · rw [if_pos hcws, ih.2]
        have : pyWords (c :: rest) = pyWords rest := by
          show wordsAux (c :: rest) [] = wordsAux rest []
          show (if pyIsSpace c then
              (if ([] : List Char) = [] then wordsAux rest []
               else List.reverse [] :: wordsAux rest [])
            else wordsAux rest [c]) = wordsAux rest []
          rw [if_pos hcws, if_pos rfl]
        rw [this]
      · rw [if_neg hcws, (ih.1 [c])]
        rfl

/-- The word sequence of the input text equals the concatenation of the word
sequences of its sentences: `_split_by_sentences` drops only whitespace. -/
theorem splitBySentences_words (text : List Char) :
    ((splitBySentences text).map pyWords).flatten = pyWords text := by
  unfold splitBySentences
  have hfilter : ∀ (l : List (List Char)),
      (((l.filter (fun s => pyStrip s ≠ [])).map (fun s => s ++ [' '])).map pyWords).flatten
        = ((l.map pyWords)).flatten := by
    intro l
    induction l with
    | nil => rfl
    | cons p ps ihp =>
      by_cases hp : pyStrip p ≠ []
      · rw [List.filter_cons_of_pos (by simpa using hp)]
        rw [List.map_cons, List.map_cons, List.flatten_cons, List.map_cons,
          List.flatten_cons, ihp, pyWords_trail_ws (by rfl) p]
      · rw [List.filter_cons_of_neg (by simpa using hp)]
        rw [List.map_cons, List.flatten_cons, ihp]
        push_neg at hp
        rw [pyWords_nil_of_strip_nil hp, List.nil_append]
  rw [hfilter (sentPieces text)]
  have := (sentAux_words text).1 []
  simpa [sentPieces] using this

/-- Every sentence produced by `_split_by_sentences` ends in the appended
space and has something other than whitespace in it. -/
theorem mem_splitBySentences {text s : List Char} (h : s ∈ splitBySentences text) :
    (∃ p, s = p ++ [' ']) ∧ pyStrip s ≠ [] ∧ s ≠ [] ∧ EndsWsOrNil s := by
  unfold splitBySentences at h
  obtain ⟨p, hp, rfl⟩ := List.mem_map.mp h
  have hps : pyStrip p ≠ [] := by
    have := List.of_mem_filter hp
    simpa using this
  refine ⟨⟨p, rfl⟩, ?_, by simp, endsWsOrNil_append_single (by rfl) p⟩
  intro hnil
  apply hps
  rw [pyStrip_eq_nil_iff] at hnil ⊢
  intro c hc
  exact hnil c (List.mem_append_left _ hc)

/-! ## Helper lemmas: the sentence loop of `split_text` -/

theorem endsWsOrNil_of_suffix {a b : List Char} (h : a <:+ b) (hb : EndsWsOrNil b) :
    EndsWsOrNil a := by
  by_cases ha : a = []
  · exact Or.inl ha
  · rcases hb with rfl | ⟨b', c, hc, rfl⟩
    · obtain ⟨p, hp⟩ := h
      exact absurd (List.append_eq_nil.mp hp).2 ha
    · obtain ⟨p, hp⟩ := h
      rcases List.eq_nil_or_concat a with rfl | ⟨a', d, rfl⟩
      · exact absurd rfl ha
      · have hq := congrArg List.getLast? hp
        rw [List.concat_eq_append] at hq ⊢
        rw [← List.append_assoc, List.getLast?_concat, List.getLast?_concat] at hq
        cases hq
        exact Or.inr ⟨a', c, hc, rfl⟩

theorem strip_ne_nil_append_left {a b : List Char} (h : pyStrip a ≠ []) :
    pyStrip (a ++ b) ≠ [] := by
  intro hnil
  apply h
  rw [pyStrip_eq_nil_iff] at hnil ⊢
  intro c hc
  exact hnil c (List.mem_append_left _ hc)

theorem strip_ne_nil_append_right {a b : List Char} (h : pyStrip b ≠ []) :
    pyStrip (a ++ b) ≠ [] := by
  intro hnil
  apply h
  rw [pyStrip_eq_nil_iff] at hnil ⊢
  intro c hc
  exact hnil c (List.mem_append_right _ hc)

/-- C1 invariant: when every sentence fits in `chunk_size` and the overlap is
positive, every chunk the sentence loop emits has length at most
`chunk_size + chunk_overlap`. -/
theorem splitTextGo_length (cs ov : Nat) (hov : 1 ≤ ov) :
    ∀ (ss : List (List Char)) (cur : List Char),
      (∀ s ∈ ss, s.length ≤ cs) → cur.length ≤ cs + ov →
      ∀ c ∈ splitTextGo cs ov ss cur, c.length ≤ cs + ov := by
  intro ss
  induction ss with
  | nil =>
    intro cur _ hcur c hc
    rw [splitTextGo] at hc
    split at hc
    · rw [List.mem_singleton] at hc
      subst hc
      exact le_trans (pyStrip_length_le cur) hcur
    · exact absurd hc (List.not_mem_nil c)
  | cons s rest ih =>
    intro cur hss hcur c hc
    have hs : s.length ≤ cs := hss s (List.mem_cons_self _ _)
    have hrest : ∀ t ∈ rest, t.length ≤ cs := fun t ht => hss t (List.mem_cons_of_mem _ ht)
    rw [splitTextGo] at hc
    by_cases hover : cur.length + s.length > cs
    · rw [if_pos hover] at hc
      by_cases hcurne : cur ≠ []
      · rw [if_pos hcurne] at hc
        rcases List.mem_cons.mp hc with rfl | hmem
        · exact le_trans (pyStrip_length_le cur) hcur
        · refine ih _ hrest ?_ c hmem
          have h1 : (getOverlapText cur ov).length ≤ ov := getOverlapText_length_le cur ov hov
          rw [List.length_append]
          omega
      · push_neg at hcurne
        subst hcurne
        simp only [List.length_nil, Nat.zero_add, gt_iff_lt] at hover
        omega
    · rw [if_neg hover] at hc
      refine ih _ hrest ?_ c hc
      rw [List.length_append]
      omega

/-- C2 invariant: the words of the pending buffer and the remaining
sentences survive, in order, in the chunks the sentence loop emits. -/
theorem splitTextGo_words_sublist (cs ov : Nat) :
    ∀ (ss : List (List Char)) (cur : List Char),
      (∀ s ∈ ss, s.length ≤ cs ∧ s ≠ [] ∧ EndsWsOrNil s) →
      EndsWsOrNil cur →
      List.Sublist (pyWords cur ++ ((ss.map pyWords)).flatten)
        (((splitTextGo cs ov ss cur).map pyWords)).flatten := by
  intro ss
  induction ss with
  | nil =>
    intro cur _ _
    rw [splitTextGo]
    simp only [List.map_nil, List.flatten_nil, List.append_nil]
    split
    · rename_i hst
      simp only [List.map_cons, List.map_nil, List.flatten_cons, List.flatten_nil,
        List.append_nil, pyWords_strip]
      exact List.Sublist.refl _
    · rename_i hst
      push_neg at hst
      rw [pyWords_nil_of_strip_nil hst]
      simp
  | cons s rest ih =>
    intro cur hss hcur
    obtain ⟨hslen, hsne, hsew⟩ := hss s (List.mem_cons_self _ _)
    have hrest : ∀ t ∈ rest, t.length ≤ cs ∧ t ≠ [] ∧ EndsWsOrNil t :=
      fun t ht => hss t (List.mem_cons_of_mem _ ht)
    rw [splitTextGo]
    by_cases hover : cur.length + s.length > cs
    · by_cases hcurne : cur ≠ []
      · rw [if_pos hover, if_pos hcurne]
        have hoew : EndsWsOrNil (getOverlapText cur ov) :=
          endsWsOrNil_of_suffix (getOverlapText_suffix cur ov) hcur
        have hih := ih (getOverlapText cur ov ++ s) hrest
          (endsWsOrNil_append_left _ hsew hsne)
        rw [pyWords_append hoew s] at hih
        simp only [List.map_cons, List.flatten_cons, pyWords_strip]
        have hstep : List.Sublist (pyWords s ++ ((rest.map pyWords)).flatten)
            (((splitTextGo cs ov rest (getOverlapText cur ov ++ s)).map pyWords)).flatten := by
          refine List.Sublist.trans ?_ hih
          rw [List.append_assoc]
          exact List.sublist_append_right _ _
        exact List.Sublist.append_left hstep (pyWords cur)
      · push_neg at hcurne
        subst hcurne
        simp only [List.length_nil, Nat.zero_add, gt_iff_lt] at hover
        omega
    · rw [if_neg hover]
      have hih := ih (cur ++ s) hrest (endsWsOrNil_append_left _ hsew hsne)
      rw [pyWords_append hcur s, List.append_assoc] at hih
      simpa using hih

/-- C8 head lemma: from a pending buffer with visible content, the next chunk
emitted is the strip of that buffer extended by zero or more sentences. -/
theorem splitTextGo_head (cs ov : Nat) :
    ∀ (ss : List (List Char)) (cur : List Char), cur ≠ [] → pyStrip cur ≠ [] →
      ∃ e t, splitTextGo cs ov ss cur = pyStrip (cur ++ e) :: t := by
  intro ss
  induction ss with
  | nil =>
    intro cur _ hs
    rw [splitTextGo, if_pos hs]
    exact ⟨[], [], by rw [List.append_nil]⟩
  | cons s rest ih =>
    intro cur hne hs
    rw [splitTextGo]
    by_cases hover : cur.length + s.length > cs
    · rw [if_pos hover, if_pos hne]
      exact ⟨[], _, by rw [List.append_nil]⟩
    · rw [if_neg hover]
      have h1 : cur ++ s ≠ [] := by simp [hne]
      obtain ⟨e, t, het⟩ := ih (cur ++ s) h1 (strip_ne_nil_append_left hs)
      exact ⟨s ++ e, t, by rw [het, List.append_assoc]⟩

/-! ## Helper lemmas: retriever plumbing -/

theorem pyGet_ok {α : Type} (l : List α) (i : Nat) (d : α) (h : i < l.length) :
    pyGet l i = .ok (l.getD i d) := by
  unfold pyGet
  rw [List.get?_eq_getElem?, List.getElem?_eq_getElem h, List.getD_eq_getElem?_getD,
    List.getElem?_eq_getElem h]
  rfl

theorem mapM_ok {E β : Type} (f : Nat → Except E β) (g : Nat → β) :
    ∀ is : List Nat, (∀ i ∈ is, f i = .ok (g i)) → is.mapM f = .ok (is.map g) := by
  intro is
  induction is with
  | nil => intro _; rfl
  | cons a l ih =>
    intro h
    rw [List.mapM_cons, h a (List.mem_cons_self _ _), ih fun i hi => h i (List.mem_cons_of_mem _ hi)]
    rfl

/-! ## Helper lemmas: dict update -/

theorem lookup_map_replace (k : String) (v : MVal) :
    ∀ m : List (String × MVal),
      List.lookup k (m.map fun p => if p.1 = k then (k, v) else p) =
        (List.lookup k m).map (fun _ => v) := by
  intro m
  induction m with
  | nil => rfl
  | cons a m ih =>
    obtain ⟨ka, va⟩ := a
    by_cases hk : ka = k
    · subst hk
      simp [List.lookup_cons, ih]
    · have hne : (k == ka) = false := by simp [Ne.symm hk]
      simp only [List.map_cons, if_neg (by simpa using hk)]
      rw [List.lookup_cons, List.lookup_cons]
      simp only [hne]
      exact ih

theorem lookup_map_replace_ne (k k' : String) (v : MVal) (h : k' ≠ k) :
    ∀ m : List (String × MVal),
      List.lookup k' (m.map fun p => if p.1 = k then (k, v) else p) = List.lookup k' m := by
  intro m
  induction m with
  | nil => rfl
  | cons a m ih =>
    obtain ⟨ka, va⟩ := a
    by_cases hk : ka = k
    · subst hk
      have hne : (k' == ka) = false := by simp [h]
      simp [List.lookup_cons, hne, ih]
    · simp only [List.map_cons, if_neg (by simpa using hk)]
      rw [List.lookup_cons, List.lookup_cons]
      by_cases hka : (k' == ka) = true <;> simp [hka, ih]

theorem lookup_isSome_of_any {k : String} :
    ∀ {m : List (String × MVal)}, m.any (fun p => p.1 = k) = true →
      ∃ v, List.lookup k m = some v := by
  intro m
  induction m with
  | nil => intro h; simp at h
  | cons a m ih =>
    intro h
    obtain ⟨ka, va⟩ := a
    rw [List.any_cons] at h
    by_cases hk : ka = k
    · subst hk
      exact ⟨va, by simp [List.lookup_cons]⟩
    · have h' : m.any (fun p => p.1 = k) = true := by
        rcases Bool.or_eq_true _ _ |>.mp h with h1 | h2
        · exact absurd (by simpa using h1) hk
        · exact h2
      obtain ⟨v', hv'⟩ := ih h'
      refine ⟨v', ?_⟩
      rw [List.lookup_cons]
      have hne : (k == ka) = false := by simp [Ne.symm hk]
      simp only [hne]
      exact hv'

theorem lookup_nil_of_not_any {k : String} :
    ∀ {m : List (String × MVal)}, m.any (fun p => p.1 = k) = false →
      List.lookup k m = none := by
  intro m
  induction m with
  | nil => intro _; rfl
  | cons a m ih =>
    intro h
    obtain ⟨ka, va⟩ := a
    rw [List.any_cons] at h
    rcases Bool.or_eq_false_iff.mp h with ⟨h1, h2⟩
    have hk : ka ≠ k := by simpa using h1
    rw [List.lookup_cons]
    have hne : (k == ka) = false := by simp [Ne.symm hk]
    simp only [hne]
    exact ih h2

theorem lookup_dictSet_self (m : List (String × MVal)) (k : String) (v : MVal) :
    (dictSet m k v).lookup k = some v := by
  unfold dictSet
  by_cases hmem : m.any (fun p => p.1 = k) = true
  · rw [if_pos hmem, lookup_map_replace]
    obtain ⟨v', hv'⟩ := lookup_isSome_of_any hmem
    rw [hv']
    rfl
  · rw [if_neg hmem]
    have := lookup_nil_of_not_any (Bool.eq_false_iff.mpr hmem)
    rw [List.lookup_append, this]
    simp [List.lookup_cons]

theorem lookup_dictSet_ne (m : List (String × MVal)) (k k' : String) (v : MVal)
    (h : k' ≠ k) : (dictSet m k v).lookup k' = m.lookup k' := by
  unfold dictSet
  by_cases hmem : m.any (fun p => p.1 = k) = true
  · rw [if_pos hmem, lookup_map_replace_ne _ _ _ h]
  · rw [if_neg hmem, List.lookup_append]
    have hne : (k' == k) = false := by simp [h]
    simp only [List.lookup_cons, hne, List.lookup_nil]
    cases List.lookup k' m <;> rfl

theorem lookup_stampMeta_chunk_id (md : List (String × MVal)) (i t o : Nat) :
    (stampMeta md i t o).lookup "chunk_id" = some (.intV i) := by
  unfold stampMeta
  rw [lookup_dictSet_ne _ _ _ _ (by decide), lookup_dictSet_ne _ _ _ _ (by decide),
    lookup_dictSet_self]

theorem lookup_stampMeta_total (md : List (String × MVal)) (i t o : Nat) :
    (stampMeta md i t o).lookup "total_chunks" = some (.intV t) := by
  unfold stampMeta
  rw [lookup_dictSet_ne _ _ _ _ (by decide), lookup_dictSet_self]

theorem lookup_stampMeta_olen (md : List (String × MVal)) (i t o : Nat) :
    (stampMeta md i t o).lookup "original_length" = some (.intV o) := by
  unfold stampMeta
  rw [lookup_dictSet_self]

theorem lookup_stampMeta_other (md : List (String × MVal)) (i t o : Nat) (k : String)
    (h1 : k ≠ "chunk_id") (h2 : k ≠ "total_chunks") (h3 : k ≠ "original_length") :
    (stampMeta md i t o).lookup k = md.lookup k := by
  unfold stampMeta
  rw [lookup_dictSet_ne _ _ _ _ h3, lookup_dictSet_ne _ _ _ _ h2,
    lookup_dictSet_ne _ _ _ _ h1]

theorem get?_mapIdx {α β : Type} :
    ∀ (l : List α) (f : Nat → α → β) (i : Nat),
      (l.mapIdx f).get? i = (l.get? i).map (f i) := by
  intro l
  induction l with
  | nil => intro f i; cases i <;> rfl
  | cons a l ih =>
    intro f i
    rw [List.mapIdx_cons]
    cases i with
    | zero => rfl
    | succ i =>
      show (l.mapIdx fun j => f (j + 1)).get? i = (l.get? i).map (f (i + 1))
      exact ih (fun j => f (j + 1)) i

theorem except_ok_bind {E α β : Type} (a : α) (f : α → Except E β) :
    (Except.ok a : Except E α) >>= f = f a := rfl

theorem except_error_bind {E α β : Type} (e : E) (f : α → Except E β) :
    (Except.error e : Except E α) >>= f = Except.error e := rfl

theorem formatResults_ok (d0 : List String) (tl : List (List String))
    (ms : List RMeta) (tlm : List (List RMeta)) (ds : List ℚ) (tld : List (List ℚ))
    (hml : d0.length ≤ ms.length) (hdl : d0.length ≤ ds.length) :
    formatResults ⟨d0 :: tl, some (ms :: tlm), some (ds :: tld)⟩ =
      .ok ((List.range d0.length).map fun i =>
        (⟨d0.getD i "", ms.getD i [], some (ds.getD i 0)⟩ : RetrievedDoc)) := by
  unfold formatResults
  by_cases hd0 : d0.isEmpty
  · have hnil : d0 = [] := by simpa using hd0
    subst hnil
    simp
  · simp only [if_neg hd0]
    refine mapM_ok _ _ _ ?_
    intro i hi
    have hilt : i < d0.length := List.mem_range.mp hi
    rw [pyGet_ok d0 i "" hilt, pyGet_ok ms i [] (lt_of_lt_of_le hilt hml),
      pyGet_ok ds i 0 (lt_of_lt_of_le hilt hdl)]
    rfl

/-! ## Helper lemmas: context building -/

theorem buildContextGo_eq :
    ∀ (docs : List CtxInput) (i : Nat),
      buildContextGo i docs = docs.mapIdx fun j d => renderDoc (i + j) d := by
  intro docs
  induction docs with
  | nil => intro i; rfl
  | cons d rest ih =>
    intro i
    rw [List.mapIdx_cons]
    show renderDoc i d :: buildContextGo (i + 1) rest = _
    rw [ih (i + 1)]
    have harith : (fun j d => renderDoc (i + 1 + j) d) = (fun j d => renderDoc (i + (j + 1)) d) := by
      funext j d
      congr 1
      omega
    rw [harith]
    simp

theorem joinSep_map_newline :
    ∀ l : List String, l ≠ [] →
      joinSep "\n" (l.map (fun x => x ++ "\n")) = joinSep "\n\n" l ++ "\n" := by
  intro l
  induction l with
  | nil => intro h; exact absurd rfl h
  | cons x xs ih =>
    intro _
    cases xs with
    | nil => rfl
    | cons y ys =>
      show (x ++ "\n") ++ "\n" ++ joinSep "\n" ((y :: ys).map (fun x => x ++ "\n")) = _
      rw [ih (by simp)]
      show (x ++ "\n") ++ "\n" ++ (joinSep "\n\n" (y :: ys) ++ "\n") =
        x ++ "\n\n" ++ joinSep "\n\n" (y :: ys) ++ "\n"
      rw [String.append_assoc x "\n" "\n", String.append_assoc,
        show ("\n" : String) ++ "\n" = "\n\n" from rfl]
      simp [String.append_assoc]

theorem mapIdx_post {α : Type} (l : List α) (B : Nat → α → String) (suf : String) :
    l.mapIdx (fun j d => B j d ++ suf) = (l.mapIdx B).map (fun x => x ++ suf) := by
  rw [List.mapIdx_eq_enum_map, List.mapIdx_eq_enum_map, List.map_map]
  rfl

/-! ## Claim theorems -/

/-- C3: for every text with `len(text) ≤ chunk_size`, `split_text` returns
the one-element list `[text]` unchanged; in particular the empty string
yields `[""]`, not `[]` (text_splitter.py lines 73-74). -/
theorem c3_short_text_identity (text : List Char) (cs ov : Nat) (h : text.length ≤ cs) :
    splitText text cs ov = [text] := by
  unfold splitText
  rw [if_pos h]

theorem c3_short_text_identity_witness :
    (("hello".toList.length ≤ 1000) ∧ splitText "hello".toList 1000 200 = ["hello".toList]) ∧
    (("".toList.length ≤ 1000) ∧ splitText "".toList 1000 200 = [[]]) :=
  ⟨⟨by decide, c3_short_text_identity "hello".toList 1000 200 (by decide)⟩,
   ⟨by decide, c3_short_text_identity "".toList 1000 200 (by decide)⟩⟩

/-- C1 counterexample: with `chunk_size = 10`, `chunk_overlap = 9`, the text
`"aaa bbb. ccc ddd. x."` (every sentence and every word of length ≤ 10)
produces the chunk `"aaa bbb. ccc ddd."` of length 17 > 10: the overlap
path can emit chunks longer than `chunk_size` even though no single
sentence or word exceeds it. -/
theorem c1_counterexample :
    splitText "aaa bbb. ccc ddd. x.".toList 10 9 =
      ["aaa bbb.".toList, "aaa bbb. ccc ddd.".toList, "ddd. x.".toList] ∧
    (∀ s ∈ splitBySentences "aaa bbb. ccc ddd. x.".toList, s.length ≤ 10) ∧
    (∀ w ∈ pyWords "aaa bbb. ccc ddd. x.".toList, w.length ≤ 10) ∧
    ("aaa bbb. ccc ddd.".toList.length > 10) := by
  refine ⟨by decide, by decide, by decide, by decide⟩

/-- C1 (amended): when `chunk_overlap ≥ 1` and every sentence fits in
`chunk_size`, every chunk `split_text` returns has length at most
`chunk_size + chunk_overlap`; the bound `chunk_size` alone does not hold
for chunks started by the overlap path, and content is never truncated. -/
theorem c1_chunk_length_bound (text : List Char) (cs ov : Nat) (hov : 1 ≤ ov)
    (hsent : ∀ s ∈ splitBySentences text, s.length ≤ cs) :
    ∀ c ∈ splitText text cs ov, c.length ≤ cs + ov := by
  unfold splitText
  split
  · rename_i hshort
    intro c hc
    rw [List.mem_singleton] at hc
    subst hc
    omega
  · exact splitTextGo_length cs ov hov _ [] hsent (by simp)

theorem c1_chunk_length_bound_witness :
    ((1 ≤ 9) ∧ (∀ s ∈ splitBySentences "aaa bbb. ccc ddd. x.".toList, s.length ≤ 10)) ∧
    (∀ c ∈ splitText "aaa bbb. ccc ddd. x.".toList 10 9, c.length ≤ 10 + 9) :=
  ⟨⟨by decide, by decide⟩,
   c1_chunk_length_bound "aaa bbb. ccc ddd. x.".toList 10 9 (by decide) (by decide)⟩

/-- C2 counterexample: with `chunk_size = 10`, `chunk_overlap = 1`, the text
`"aaa bbb ccc ddd eee. x."` has sentences `"aaa bbb ccc ddd eee. "` and
`"x. "`, but the word-split path carries the word-chunk `"eee."` forward
without a trailing space, so the second sentence is fused into the chunk
`"eee.x."`: the sentence `"x."` is not preserved and the chunk words are
not a supersequence of the text's words. -/
theorem c2_counterexample :
    splitText "aaa bbb ccc ddd eee. x.".toList 10 1 =
      ["aaa bbb".toList, "ccc ddd".toList, "eee.x.".toList] ∧
    splitBySentences "aaa bbb ccc ddd eee. x.".toList =
      ["aaa bbb ccc ddd eee. ".toList, "x. ".toList] ∧
    ¬ List.Sublist (pyWords "aaa bbb ccc ddd eee. x.".toList)
        (((splitText "aaa bbb ccc ddd eee. x.".toList 10 1).map pyWords)).flatten := by
  refine ⟨by decide, by decide, ?_⟩
  intro h
  have hmem : "x.".toList ∈
      (((splitText "aaa bbb ccc ddd eee. x.".toList 10 1).map pyWords)).flatten :=
    h.subset (by decide)
  exact absurd hmem (by decide)

/-- C2 (amended): when every sentence fits in `chunk_size` (so the
word-split path is never taken), the chunks preserve every word of the
original text in order (whitespace-normalized); overlap only adds
duplicates.  When a sentence exceeds `chunk_size`, the word-split path can
fuse its carried last word with the following sentence, losing the
separating whitespace. -/
theorem c2_words_preserved (text : List Char) (cs ov : Nat)
    (hsent : ∀ s ∈ splitBySentences text, s.length ≤ cs) :
    List.Sublist (pyWords text) (((splitText text cs ov).map pyWords)).flatten := by
  unfold splitText
  split
  · simp only [List.map_cons, List.map_nil, List.flatten_cons, List.flatten_nil,
      List.append_nil]
    exact List.Sublist.refl _
  · have h := splitTextGo_words_sublist cs ov (splitBySentences text) []
      (fun s hs => ⟨hsent s hs, (mem_splitBySentences hs).2.2.1,
        (mem_splitBySentences hs).2.2.2⟩)
      (Or.inl rfl)
    rw [show pyWords ([] : List Char) = [] from rfl, List.nil_append,
      splitBySentences_words] at h
    exact h

theorem c2_words_preserved_witness :
    (∀ s ∈ splitBySentences "aaaa. bbbb. cccc.".toList, s.length ≤ 10) ∧
    List.Sublist (pyWords "aaaa. bbbb. cccc.".toList)
      (((splitText "aaaa. bbbb. cccc.".toList 10 5).map pyWords)).flatten :=
  ⟨by decide, c2_words_preserved "aaaa. bbbb. cccc.".toList 10 5 (by decide)⟩

/-- C8 counterexample: with `chunk_size = 10`, `chunk_overlap = 5` on
`"aaaa. bbbb. cccc."`, chunk 1 (`"bbbb."`) is started by the sentence-level
overlap path (the buffer `"aaaa. "` was non-empty and overflowed), yet the
word-boundary adjustment strips the whole overlap window
(`_get_overlap_text("aaaa. ", 5) = ""`), so no non-empty prefix of chunk 1
is a suffix of chunk 0. -/
theorem c8_counterexample :
    splitText "aaaa. bbbb. cccc.".toList 10 5 =
      ["aaaa.".toList, "bbbb.".toList, "cccc.".toList] ∧
    splitBySentences "aaaa. bbbb. cccc.".toList =
      ["aaaa. ".toList, "bbbb. ".toList, "cccc. ".toList] ∧
    ("aaaa. ".toList ≠ [] ∧ "aaaa. ".toList.length + "bbbb. ".toList.length > 10) ∧
    getOverlapText "aaaa. ".toList 5 = [] ∧
    (∀ n, n < 6 → List.take n "bbbb.".toList <:+ "aaaa.".toList → n = 0) := by
  refine ⟨by decide, by decide, by decide, by decide, ?_⟩
  intro n hn hsuf
  rw [List.suffix_iff_eq_drop] at hsuf
  revert hsuf
  revert hn
  revert n
  decide

/-- C8 (amended): whenever the sentence-level overlap path fires (non-empty
buffer `cur`, incoming sentence `s` overflowing `chunk_size`), the emitted
chunk is `strip(cur)` and the next chunk begins with the strip of the
overlap suffix `_get_overlap_text(cur, chunk_overlap)`, which is a
(possibly empty) suffix of the emitted chunk; the shared string can be
empty when the word-boundary adjustment strips the whole window. -/
theorem c8_overlap_adjacent (cs ov : Nat) (cur s : List Char) (rest : List (List Char))
    (hcur : cur ≠ []) (hover : cur.length + s.length > cs) (hs : pyStrip s ≠ []) :
    ∃ nxt t, splitTextGo cs ov (s :: rest) cur = pyStrip cur :: nxt :: t ∧
      pyStrip (getOverlapText cur ov) <:+ pyStrip cur ∧
      pyStrip (getOverlapText cur ov) <+: nxt := by
  rw [splitTextGo, if_pos hover, if_pos hcur]
  have hne : getOverlapText cur ov ++ s ≠ [] := by
    intro hnil
    apply hs
    rw [(List.append_eq_nil.mp hnil).2]
    rfl
  obtain ⟨e, t, het⟩ := splitTextGo_head cs ov rest (getOverlapText cur ov ++ s)
    hne (strip_ne_nil_append_right hs)
  refine ⟨pyStrip ((getOverlapText cur ov ++ s) ++ e), t, by rw [het],
    pyStrip_suffix_mono (getOverlapText_suffix cur ov), ?_⟩
  rw [List.append_assoc]
  exact pyStrip_append_isPrefix _ _

theorem c8_overlap_adjacent_witness :
    ("aaa bbb. ".toList ≠ [] ∧
      "aaa bbb. ".toList.length + "ccc ddd. ".toList.length > 10 ∧
      pyStrip "ccc ddd. ".toList ≠ []) ∧
    (∃ nxt t, splitTextGo 10 9 ["ccc ddd. ".toList] "aaa bbb. ".toList =
        pyStrip "aaa bbb. ".toList :: nxt :: t ∧
      pyStrip (getOverlapText "aaa bbb. ".toList 9) <:+ pyStrip "aaa bbb. ".toList ∧
      pyStrip (getOverlapText "aaa bbb. ".toList 9) <+: nxt) :=
  ⟨⟨by decide, by decide, by decide⟩,
   c8_overlap_adjacent 10 9 "aaa bbb. ".toList "ccc ddd. ".toList []
     (by decide) (by decide) (by decide)⟩

/-- C4: on an initialized retriever whose store reports a non-zero count and
answers the query with positionally aligned documents/metadatas/distances
(at most `min(n_results, count)` of them, as the store is asked for),
`retrieve` returns those results zipped positionally in store order,
with length at most `min(n_results, stored_count)`. -/
theorem c4_retrieve_zip_bound (r : Retriever) (store : StoreModel) (n c : Nat)
    (d0 : List String) (tl : List (List String)) (ms : List RMeta)
    (tlm : List (List RMeta)) (ds : List ℚ) (tld : List (List ℚ)) (emb : List ℚ)
    (hcol : r.collection = some store) (hcount : store.countResult = .ok c) (hc : c ≠ 0)
    (hemb : r.embedQueryResult = .ok emb)
    (hq : store.queryResult (min n c) = .ok ⟨d0 :: tl, some (ms :: tlm), some (ds :: tld)⟩)
    (hlen : d0.length ≤ min n c) (hml : d0.length ≤ ms.length) (hdl : d0.length ≤ ds.length) :
    retrieve r n = .ok ((List.range d0.length).map fun i =>
        (⟨d0.getD i "", ms.getD i [], some (ds.getD i 0)⟩ : RetrievedDoc)) ∧
    ((List.range d0.length).map fun i =>
        (⟨d0.getD i "", ms.getD i [], some (ds.getD i 0)⟩ : RetrievedDoc)).length ≤ min n c := by
  constructor
  · unfold retrieve
    rw [hcol]
    simp only [hcount, except_ok_bind]
    rw [if_neg hc]
    simp only [hemb, except_ok_bind, hq, formatResults_ok d0 tl ms tlm ds tld hml hdl]
  · rw [List.length_map, List.length_range]
    exact hlen

theorem c4_retrieve_zip_bound_witness :
    retrieve ⟨some ⟨.ok 2,
        fun _ => .ok ⟨[["alpha", "beta"]],
          some [[[("source", "a.md")], [("source", "b.md")]]],
          some [[(1 : ℚ)/2, (3 : ℚ)/4]]⟩, .ok ()⟩, .ok [1], .ok []⟩ 5 =
      .ok ((List.range (["alpha", "beta"] : List String).length).map fun i =>
        (⟨(["alpha", "beta"] : List String).getD i "",
          ([[("source", "a.md")], [("source", "b.md")]] : List RMeta).getD i [],
          some (([(1 : ℚ)/2, (3 : ℚ)/4]).getD i 0)⟩ : RetrievedDoc)) ∧
    ((List.range (["alpha", "beta"] : List String).length).map fun i =>
        (⟨(["alpha", "beta"] : List String).getD i "",
          ([[("source", "a.md")], [("source", "b.md")]] : List RMeta).getD i [],
          some (([(1 : ℚ)/2, (3 : ℚ)/4]).getD i 0)⟩ : RetrievedDoc)).length ≤ min 5 2 :=
  c4_retrieve_zip_bound _ _ 5 2 ["alpha", "beta"] [] [[("source", "a.md")], [("source", "b.md")]]
    [] [(1 : ℚ)/2, (3 : ℚ)/4] [] [1] rfl rfl (by decide) rfl rfl (by decide) (by decide) (by decide)

/-- C5: on an initialized retriever, `retrieve` returns the empty list and
does not raise when the store holds zero records, when the query embedding
raises, when the store query raises, and when the count itself raises:
retrieval failure degrades to an empty result. -/
theorem c5_retrieve_degrades (r : Retriever) (store : StoreModel) (n c : Nat)
    (e : PyErr) (emb : List ℚ) (hcol : r.collection = some store) :
    (store.countResult = .ok 0 → retrieve r n = .ok []) ∧
    (store.countResult = .ok c → c ≠ 0 → r.embedQueryResult = .error e →
      retrieve r n = .ok []) ∧
    (store.countResult = .ok c → c ≠ 0 → r.embedQueryResult = .ok emb →
      store.queryResult (min n c) = .error e → retrieve r n = .ok []) ∧
    (store.countResult = .error e → retrieve r n = .ok []) := by
  refine ⟨?_, ?_, ?_, ?_⟩ <;> unfold retrieve <;> rw [hcol]
  · intro h0
    simp [h0, except_ok_bind]
  · intro hcnt hc hembe
    simp only [hcnt, except_ok_bind]
    rw [if_neg hc]
    simp [hembe, except_error_bind]
  · intro hcnt hc hembo hqe
    simp only [hcnt, except_ok_bind]
    rw [if_neg hc]
    simp [hembo, except_ok_bind, hqe, except_error_bind]
  · intro hcnte
    simp [hcnte, except_error_bind]

theorem c5_retrieve_degrades_witness :
    retrieve ⟨some ⟨.ok 0, fun _ => .ok ⟨[], none, none⟩, .ok ()⟩, .ok [], .ok []⟩ 5 = .ok [] ∧
    retrieve ⟨some ⟨.ok 3, fun _ => .ok ⟨[], none, none⟩, .ok ()⟩, .error .exc, .ok []⟩ 5
      = .ok [] ∧
    retrieve ⟨some ⟨.ok 3, fun _ => .error .exc, .ok ()⟩, .ok [1], .ok []⟩ 5 = .ok [] :=
  ⟨(c5_retrieve_degrades _ _ 5 0 .exc [] rfl).1 rfl,
   (c5_retrieve_degrades _ _ 5 3 .exc [] rfl).2.1 rfl (by decide) rfl,
   (c5_retrieve_degrades _ _ 5 3 .exc [1] rfl).2.2.1 rfl (by decide) rfl rfl⟩

/-- C6: `_build_context` on the empty list is exactly the fixed no-information
sentence, and on a non-empty list it is the numbered relevance/source blocks,
1-based, 2-decimal similarity, joined by blank lines — the loop-built string
equals the spec-shaped rendering for every input. -/
theorem c6_build_context_spec (documents : List CtxInput) :
    buildContext documents = buildContextSpec documents := by
  unfold buildContext buildContextSpec
  by_cases hd : documents = []
  · rw [if_pos hd, if_pos hd]
  · rw [if_neg hd, if_neg hd, buildContextGo_eq]
    have hfun : (fun (j : Nat) (d : CtxInput) => renderDoc (1 + j) d) =
        (fun (j : Nat) (d : CtxInput) =>
          ("Document " ++ toString (j + 1) ++ " (Relevance: " ++
            fmt2 (d.similarity.getD 0) ++ ", Source: " ++ sourceOf d ++ "):\n" ++
            d.content) ++ "\n") := by
      funext j d
      unfold renderDoc
      rw [Nat.add_comm 1 j]
    rw [hfun, mapIdx_post]
    refine joinSep_map_newline _ ?_
    intro hnil
    apply hd
    have hlen := congrArg List.length hnil
    rw [List.length_mapIdx] at hlen
    exact List.length_eq_zero.mp hlen

/-- C7: `split_documents` stamps each produced chunk's metadata with the
originating document's metadata extended by `chunk_id` (0-based position),
`total_chunks` and `original_length`, leaving every other key (in
particular `source` and `category`) unchanged; a document whose processing
raises (missing `content`) is skipped without aborting the batch. -/
theorem c7_split_documents_meta (cs ov : Nat) (pre post : List SrcDoc) (bad doc : SrcDoc)
    (content : List Char) (md : List (String × MVal))
    (hbad : bad.content = none) (hc : doc.content = some content)
    (hm : doc.metadata = some md) :
    splitDocuments cs ov (pre ++ bad :: post) =
      splitDocuments cs ov pre ++ splitDocuments cs ov post ∧
    (docContribution cs ov doc).length = (splitText content cs ov).length ∧
    ∀ i, i < (splitText content cs ov).length →
      (docContribution cs ov doc).get? i = some
        ⟨(splitText content cs ov).getD i [],
          stampMeta md i (splitText content cs ov).length content.length⟩ ∧
      (stampMeta md i (splitText content cs ov).length content.length).lookup "chunk_id"
        = some (.intV i) ∧
      (stampMeta md i (splitText content cs ov).length content.length).lookup "total_chunks"
        = some (.intV (splitText content cs ov).length) ∧
      (stampMeta md i (splitText content cs ov).length content.length).lookup "original_length"
        = some (.intV content.length) ∧
      ∀ k, k ≠ "chunk_id" → k ≠ "total_chunks" → k ≠ "original_length" →
        (stampMeta md i (splitText content cs ov).length content.length).lookup k
          = md.lookup k := by
  refine ⟨?_, ?_, ?_⟩
  · unfold splitDocuments
    rw [List.map_append, List.map_cons, List.flatten_append, List.flatten_cons]
    have hbadnil : docContribution cs ov bad = [] := by
      unfold docContribution
      rw [hbad]
    rw [hbadnil, List.nil_append]
  · unfold docContribution
    rw [hc, hm]
    exact List.length_mapIdx
  · intro i hi
    refine ⟨?_, lookup_stampMeta_chunk_id md i _ _, lookup_stampMeta_total md i _ _,
      lookup_stampMeta_olen md i _ _,
      fun k h1 h2 h3 => lookup_stampMeta_other md i _ _ k h1 h2 h3⟩
    unfold docContribution
    rw [hc, hm]
    rw [get?_mapIdx]
    rw [List.get?_eq_getElem?, List.getElem?_eq_getElem hi, List.getD_eq_getElem?_getD,
      List.getElem?_eq_getElem hi]
    rfl

theorem c7_split_documents_meta_witness :
    ((⟨none, some []⟩ : SrcDoc).content = none ∧
      (⟨some "hello world. goodbye world now.".toList,
        some [("source", .strV "a.md".toList), ("category", .strV "fitness".toList)]⟩
        : SrcDoc).content = some "hello world. goodbye world now.".toList) ∧
    (splitDocuments 20 5 ([⟨some "hi.".toList, some []⟩] ++ (⟨none, some []⟩ : SrcDoc) ::
        [⟨some "yo.".toList, some []⟩]) =
      splitDocuments 20 5 [⟨some "hi.".toList, some []⟩] ++
        splitDocuments 20 5 [⟨some "yo.".toList, some []⟩] ∧
    (docContribution 20 5 ⟨some "hello world. goodbye world now.".toList,
        some [("source", .strV "a.md".toList), ("category", .strV "fitness".toList)]⟩).length
      = (splitText "hello world. goodbye world now.".toList 20 5).length ∧
    ∀ i, i < (splitText "hello world. goodbye world now.".toList 20 5).length →
      (docContribution 20 5 ⟨some "hello world. goodbye world now.".toList,
          some [("source", .strV "a.md".toList), ("category", .strV "fitness".toList)]⟩).get? i
        = some ⟨(splitText "hello world. goodbye world now.".toList 20 5).getD i [],
            stampMeta [("source", .strV "a.md".toList), ("category", .strV "fitness".toList)] i
              (splitText "hello world. goodbye world now.".toList 20 5).length
              "hello world. goodbye world now.".toList.length⟩ ∧
      (stampMeta [("source", .strV "a.md".toList), ("category", .strV "fitness".toList)] i
          (splitText "hello world. goodbye world now.".toList 20 5).length
          "hello world. goodbye world now.".toList.length).lookup "chunk_id"
        = some (.intV i) ∧
      (stampMeta [("source", .strV "a.md".toList), ("category", .strV "fitness".toList)] i
          (splitText "hello world. goodbye world now.".toList 20 5).length
          "hello world. goodbye world now.".toList.length).lookup "total_chunks"
        = some (.intV (splitText "hello world. goodbye world now.".toList 20 5).length) ∧
      (stampMeta [("source", .strV "a.md".toList), ("category", .strV "fitness".toList)] i
          (splitText "hello world. goodbye world now.".toList 20 5).length
          "hello world. goodbye world now.".toList.length).lookup "original_length"
        = some (.intV "hello world. goodbye world now.".toList.length) ∧
      ∀ k, k ≠ "chunk_id" → k ≠ "total_chunks" → k ≠ "original_length" →
        (stampMeta [("source", .strV "a.md".toList), ("category", .strV "fitness".toList)] i
            (splitText "hello world. goodbye world now.".toList 20 5).length
            "hello world. goodbye world now.".toList.length).lookup k
          = List.lookup k [("source", .strV "a.md".toList),
              ("category", .strV "fitness".toList)]) :=
  ⟨⟨rfl, rfl⟩,
   c7_split_documents_meta 20 5 [⟨some "hi.".toList, some []⟩] [⟨some "yo.".toList, some []⟩]
     ⟨none, some []⟩ _ _ _ rfl rfl rfl⟩

/-- C9: a never-initialized retriever (`collection is None`) raises
`RuntimeError` from both `retrieve` and `add_documents`, while
`get_retrieval_stats` on the same state returns
`{'document_count': 0, 'status': 'not_initialized'}` without raising. -/
theorem c9_uninitialized_behavior (r : Retriever) (n : Nat) (docs : List String)
    (name : String) (h : r.collection = none) :
    retrieve r n = .error .runtimeError ∧
    addDocuments r docs = .error .runtimeError ∧
    getRetrievalStats r name = ⟨0, "not_initialized", none, none⟩ := by
  unfold retrieve addDocuments getRetrievalStats
  rw [h]
  exact ⟨rfl, rfl, rfl⟩

theorem c9_uninitialized_behavior_witness :
    retrieve ⟨none, .ok [], .ok []⟩ 5 = .error .runtimeError ∧
    addDocuments ⟨none, .ok [], .ok []⟩ ["doc"] = .error .runtimeError ∧
    getRetrievalStats ⟨none, .ok [], .ok []⟩ "fitflix_documents" =
      ⟨0, "not_initialized", none, none⟩ :=
  c9_uninitialized_behavior ⟨none, .ok [], .ok []⟩ 5 ["doc"] "fitflix_documents" rfl

/-- C10: every result record produced by `retrieve` carries a `'distance'`
key and no `'similarity'` key, so `_build_context` reads the absent
`'similarity'` with default `0` and renders its relevance as exactly
`"0.00"`, whatever the stored distance was. -/
theorem c10_relevance_always_zero (r : Retriever) (n : Nat) (docs : List RetrievedDoc)
    (_hr : retrieve r n = .ok docs) :
    ∀ d ∈ docs, (toCtxInput d).similarity = none ∧
      fmt2 ((toCtxInput d).similarity.getD 0) = "0.00" := by
  intro d _
  refine ⟨rfl, ?_⟩
  show fmt2 0 = "0.00"
  decide

theorem c10_relevance_always_zero_witness :
    (toCtxInput (⟨"alpha", [("source", "a.md")], some ((1 : ℚ)/2)⟩ : RetrievedDoc)).similarity
      = none ∧
    fmt2 ((toCtxInput
        (⟨"alpha", [("source", "a.md")], some ((1 : ℚ)/2)⟩ : RetrievedDoc)).similarity.getD 0)
      = "0.00" :=
  c10_relevance_always_zero ⟨some ⟨.ok 2,
      fun _ => .ok ⟨[["alpha", "beta"]],
        some [[[("source", "a.md")], [("source", "b.md")]]],
        some [[(1 : ℚ)/2, (3 : ℚ)/4]]⟩, .ok ()⟩, .ok [1], .ok []⟩ 5
    [⟨"alpha", [("source", "a.md")], some ((1 : ℚ)/2)⟩,
     ⟨"beta", [("source", "b.md")], some ((3 : ℚ)/4)⟩] rfl
    ⟨"alpha", [("source", "a.md")], some ((1 : ℚ)/2)⟩ (List.mem_cons_self _ _)

end FitFlix
